import Mathlib

/-!
Verification of the batch orchestration layer in `ssl/juliacall_integration.py`.

The Python module iterates over the columns of a pandas `DataFrame`, cleans
each column with `dropna().values.astype(float)`, calls the external Julia
engine `getssl` on the cleaned series, and accumulates per-column results in
a Python dict.  We embed that function shallowly:

* a dataframe is an ordered association list of named columns, each column a
  list of cells where `none` models a missing (`NaN`) entry; cell values are
  modelled as exact numbers (`Int`) since the orchestrator only passes them
  through, never computes with them;
* the external engine (`getssl`, loaded through JuliaCall) is an arbitrary
  function `List Int → Except String EstResult`: `Except.error e` models a
  raised exception with text `e`, `Except.ok r` a structured return value;
* a returned engine value is a loosely typed record: the `success`,
  `message` and `trend` keys may each be absent (`Option`), mirroring
  `result.get` access in the Python code;
* the Python dict is an association list with dict insertion semantics
  (overwrite in place when the key exists, append otherwise), matching the
  insertion-order guarantee of Python dicts;
* `JULIA_AVAILABLE` is the boolean parameter `julia_available`, and the
  `RuntimeError` raised when it is false is the `Except.error` channel of
  the whole batch call.
-/

/-- A dataframe cell: `none` models a missing (`NaN`) entry. -/
abbrev Cell := Option Int

/-- A pandas dataframe as consumed by `run_structural_model`: an ordered
collection of named columns. -/
structure DataFrame where
  cols : List (String × List Cell)

/-- `price_data.columns`: the column names in order. -/
def DataFrame.columns (df : DataFrame) : List String :=
  df.cols.map Prod.fst

/-- `price_data[ticker]`: the cells of the first column named `name`. -/
def DataFrame.getColumn (df : DataFrame) (name : String) : List Cell :=
  ((df.cols.find? (fun p => p.1 == name)).map Prod.snd).getD []

/-- `series.dropna().values.astype(float)`: drop the missing entries keeping
the relative order of the rest; the numeric conversion is the identity on
our exact value representation. -/
def dropnaAstype (cells : List Cell) : List Int :=
  cells.filterMap id

/-- The loosely typed record returned by the external engine: each key the
orchestrator reads may be absent. -/
structure EstResult where
  success : Option Bool
  message : Option String
  trend : Option (List Int)
deriving DecidableEq

/-- The external engine `getssl` as seen from the orchestrator: it either
raises (`Except.error` with the exception text) or returns a record. -/
abbrev Gateway := List Int → Except String EstResult

/-- `result.get ("success", False)`: the success flag defaults to false
when the key is absent. -/
def getSuccess (r : EstResult) : Bool :=
  r.success.getD false

/-- The message recorded when processing ticker `t` raised exception `e`:
`"Error processing " ++ t ++ ": " ++ e`. -/
def errMsg (t e : String) : String :=
  "Error processing " ++ t ++ ": " ++ e

/-- The failure record stored when the engine raised:
`dict (success = False, message = errMsg)`, no `trend` key. -/
def failureRecord (t e : String) : EstResult :=
  { success := some false, message := some (errMsg t e), trend := none }

/-- The results dict being built: an ordered association list. -/
abbrev ResultsMap := List (String × EstResult)

/-- `results[ticker] = v` with Python dict semantics: an existing key keeps
its original position and gets the new value, a new key is appended. -/
def dictInsert (m : ResultsMap) (k : String) (v : EstResult) : ResultsMap :=
  if m.any (fun p => p.1 == k) then
    m.map (fun p => if p.1 == k then (k, v) else p)
  else
    m ++ [(k, v)]

/-- Dict lookup: the value stored under `k`, if any. -/
def dictLookup (m : ResultsMap) (k : String) : Option EstResult :=
  (m.find? (fun p => p.1 == k)).map Prod.snd

/-- One iteration of the `for ticker in price_data.columns` loop body:
extract and clean the series, call the engine inside the
exception-isolating boundary, then either record the failure entry, skip
the column (signaled failure), or record the result. -/
def processTicker (gw : Gateway) (df : DataFrame) (m : ResultsMap)
    (t : String) : ResultsMap :=
  match gw (dropnaAstype (df.getColumn t)) with
  | Except.error e => dictInsert m t (failureRecord t e)
  | Except.ok r => if getSuccess r then dictInsert m t r else m

/-- The batch loop of `run_structural_model` starting from the empty dict. -/
def runBatch (gw : Gateway) (df : DataFrame) : ResultsMap :=
  df.columns.foldl (processTicker gw df) []

/-- The message of the `RuntimeError` raised when Julia is unavailable. -/
def unavailableMsg : String :=
  "Julia integration is not available. Please install PyJulia."

/-- `run_structural_model` itself: fail fast when the capability flag is
false, otherwise run the batch loop and return the dict. -/
def run_structural_model (julia_available : Bool) (gw : Gateway)
    (df : DataFrame) : Except String ResultsMap :=
  if julia_available then Except.ok (runBatch gw df)
  else Except.error unavailableMsg

/-- The availability path always returns the batch dict. -/
theorem run_true_eq (gw : Gateway) (df : DataFrame) :
    run_structural_model true gw df = Except.ok (runBatch gw df) := rfl

/-- Cleaning, stated back at the level of cells: mapping `some` over the
cleaned series recovers exactly the non-missing cells in order. -/
theorem clean_map_some (cells : List Cell) :
    (dropnaAstype cells).map some = cells.filter (fun o => o.isSome) := by
  induction cells with
  | nil => rfl
  | cons o t ih =>
    cases o with
    | none => simpa [dropnaAstype, List.filterMap_cons] using ih
    | some x => simpa [dropnaAstype, List.filterMap_cons] using ih

/-- C1: when the availability flag is false, `run_structural_model` fails
with the distinct capability-unavailable `RuntimeError` message, and the
outcome is independent of the gateway and of the dataset — no series is
extracted and no estimation call is made. -/
theorem capability_unavailable_fail_fast (gw : Gateway) (df : DataFrame) :
    run_structural_model false gw df = Except.error unavailableMsg ∧
    ∀ (gw2 : Gateway) (df2 : DataFrame),
      run_structural_model false gw df = run_structural_model false gw2 df2 :=
  ⟨rfl, fun _ _ => rfl⟩

/-- C5: once the availability precondition holds, the batch call always
returns a mapping: every per-series error is contained in the loop and
none propagates out. -/
theorem batch_always_returns (gw : Gateway) (df : DataFrame) :
    ∃ m, run_structural_model true gw df = Except.ok m :=
  ⟨runBatch gw df, rfl⟩

/-- C6: series extraction selects the named column and removes the missing
entries while preserving the relative order of the remaining ones: viewed
back as cells, the cleaned series is exactly the filter of the column to
its non-missing cells, hence an order-preserving subsequence of the
column; extraction is a pure function of the dataset. -/
theorem extraction_clean (df : DataFrame) (c : String) :
    (dropnaAstype (df.getColumn c)).map some =
      (df.getColumn c).filter (fun o => o.isSome) ∧
    ((dropnaAstype (df.getColumn c)).map some).Sublist (df.getColumn c) := by
  refine ⟨clean_map_some _, ?_⟩
  rw [clean_map_some]
  exact List.filter_sublist _


/-- The expected per-column entry: what the loop body contributes for a
column, as a function of the engine result on its cleaned series. -/
def expectedEntry (gw : Gateway) (df : DataFrame) (t : String) :
    Option EstResult :=
  match gw (dropnaAstype (df.getColumn t)) with
  | Except.error e => some (failureRecord t e)
  | Except.ok r => if getSuccess r then some r else none

theorem find?_cons_pos {α : Type} (f : α → Bool) (a : α) (l : List α)
    (h : f a = true) : (a :: l).find? f = some a :=
  List.find?_cons_of_pos l h

theorem find?_cons_neg {α : Type} (f : α → Bool) (a : α) (l : List α)
    (h : f a = false) : (a :: l).find? f = l.find? f :=
  List.find?_cons_of_neg l (by simp [h])

theorem any_false_forall (m : ResultsMap) (k : String)
    (h : m.any (fun p => p.1 == k) = false) :
    ∀ p ∈ m, (p.1 == k) = false := by
  induction m with
  | nil => intro p hp; simp at hp
  | cons q t ih =>
    simp only [List.any_cons, Bool.or_eq_false_iff] at h
    intro p hp
    rcases List.mem_cons.mp hp with he | ht
    · subst he; exact h.1
    · exact ih h.2 p ht

theorem find?_mapReplace_self (m : ResultsMap) (k : String) (v : EstResult)
    (h : m.any (fun p => p.1 == k) = true) :
    (m.map (fun p => if p.1 == k then (k, v) else p)).find?
      (fun p => p.1 == k) = some (k, v) := by
  induction m with
  | nil => simp at h
  | cons p t ih =>
    simp only [List.map_cons]
    by_cases hp : (p.1 == k) = true
    · rw [if_pos hp]
      exact find?_cons_pos (fun q => q.1 == k) (k, v) _ (by simp)
    · have hp2 : (p.1 == k) = false := by simpa using hp
      rw [if_neg hp, find?_cons_neg (fun q => q.1 == k) p _ hp2]
      apply ih
      simp only [List.any_cons, Bool.or_eq_true] at h
      exact h.resolve_left hp

theorem find?_mapReplace_ne (m : ResultsMap) (k : String) (v : EstResult)
    (c : String) (hne : c ≠ k) :
    (m.map (fun p => if p.1 == k then (k, v) else p)).find?
      (fun p => p.1 == c) = m.find? (fun p => p.1 == c) := by
  have hkc : ((k : String) == c) = false := by
    simp only [beq_eq_false_iff_ne, ne_eq]
    exact fun hh => hne hh.symm
  induction m with
  | nil => rfl
  | cons p t ih =>
    simp only [List.map_cons]
    by_cases hp : (p.1 == k) = true
    · have hpk : p.1 = k := by simpa using hp
      have hpc : (p.1 == c) = false := by rw [hpk]; exact hkc
      rw [if_pos hp, find?_cons_neg (fun q => q.1 == c) (k, v) _ hkc,
        find?_cons_neg (fun q => q.1 == c) p _ hpc, ih]
    · rw [if_neg hp]
      by_cases hc : (p.1 == c) = true
      · rw [find?_cons_pos (fun q => q.1 == c) p _ hc,
          find?_cons_pos (fun q => q.1 == c) p _ hc]
      · have hc2 : (p.1 == c) = false := by simpa using hc
        rw [find?_cons_neg (fun q => q.1 == c) p _ hc2,
          find?_cons_neg (fun q => q.1 == c) p _ hc2, ih]

theorem find?_append_right_none {α : Type} (f : α → Bool) (l1 l2 : List α)
    (h : ∀ x ∈ l2, f x = false) :
    (l1 ++ l2).find? f = l1.find? f := by
  induction l1 with
  | nil =>
    simp only [List.nil_append, List.find?_nil]
    rw [List.find?_eq_none]
    intro x hx
    simp [h x hx]
  | cons a t ih =>
    by_cases ha : f a = true
    · rw [List.cons_append, find?_cons_pos f a _ ha, find?_cons_pos f a _ ha]
    · have ha2 : f a = false := by simpa using ha
      rw [List.cons_append, find?_cons_neg f a _ ha2,
        find?_cons_neg f a _ ha2, ih]

theorem find?_append_singleton_pos {α : Type} (f : α → Bool) (l1 : List α)
    (x : α) (h : ∀ y ∈ l1, f y = false) (hx : f x = true) :
    (l1 ++ [x]).find? f = some x := by
  induction l1 with
  | nil => simpa using find?_cons_pos f x [] hx
  | cons a t ih =>
    have ha := h a (List.mem_cons_self a t)
    rw [List.cons_append, find?_cons_neg f a _ ha]
    exact ih (fun y hy => h y (List.mem_cons_of_mem a hy))

theorem dictLookup_dictInsert_self (m : ResultsMap) (k : String)
    (v : EstResult) : dictLookup (dictInsert m k v) k = some v := by
  unfold dictLookup dictInsert
  by_cases h : m.any (fun p => p.1 == k) = true
  · rw [if_pos h, find?_mapReplace_self m k v h]
    rfl
  · rw [if_neg h]
    have h2 : m.any (fun p => p.1 == k) = false := by
      cases hb : m.any (fun p => p.1 == k) with
      | false => rfl
      | true => exact absurd hb h
    rw [find?_append_singleton_pos _ m (k, v) (any_false_forall m k h2)
      (by simp)]
    rfl

theorem dictLookup_dictInsert_ne (m : ResultsMap) (k : String)
    (v : EstResult) (c : String) (h : c ≠ k) :
    dictLookup (dictInsert m k v) c = dictLookup m c := by
  unfold dictLookup dictInsert
  by_cases hm : m.any (fun p => p.1 == k) = true
  · rw [if_pos hm, find?_mapReplace_ne m k v c h]
  · rw [if_neg hm, find?_append_right_none]
    intro x hx
    simp only [List.mem_singleton] at hx
    subst hx
    show ((k : String) == c) = false
    simp only [beq_eq_false_iff_ne, ne_eq]
    exact fun hh => h hh.symm

theorem lookup_processTicker_self (gw : Gateway) (df : DataFrame)
    (m : ResultsMap) (t : String) :
    dictLookup (processTicker gw df m t) t =
      (expectedEntry gw df t).or (dictLookup m t) := by
  rcases hr : gw (dropnaAstype (df.getColumn t)) with e | r
  · simp [processTicker, expectedEntry, hr, dictLookup_dictInsert_self,
      Option.or]
  · by_cases hs : getSuccess r = true
    · simp [processTicker, expectedEntry, hr, hs, dictLookup_dictInsert_self,
        Option.or]
    · simp only [Bool.not_eq_true] at hs
      simp [processTicker, expectedEntry, hr, hs, Option.or]

theorem lookup_processTicker_ne (gw : Gateway) (df : DataFrame)
    (m : ResultsMap) (t c : String) (h : c ≠ t) :
    dictLookup (processTicker gw df m t) c = dictLookup m c := by
  rcases hr : gw (dropnaAstype (df.getColumn t)) with e | r
  · simp [processTicker, hr, dictLookup_dictInsert_ne _ _ _ _ h]
  · by_cases hs : getSuccess r = true
    · simp [processTicker, hr, hs, dictLookup_dictInsert_ne _ _ _ _ h]
    · simp only [Bool.not_eq_true] at hs
      simp [processTicker, hr, hs]

theorem foldl_lookup_not_mem (gw : Gateway) (df : DataFrame)
    (names : List String) (m : ResultsMap) (c : String) (h : c ∉ names) :
    dictLookup (names.foldl (processTicker gw df) m) c = dictLookup m c := by
  induction names generalizing m with
  | nil => rfl
  | cons t rest ih =>
    have hct : c ≠ t := fun he => h (he ▸ List.mem_cons_self t rest)
    have hcr : c ∉ rest := fun he => h (List.mem_cons_of_mem t he)
    rw [List.foldl_cons, ih _ hcr, lookup_processTicker_ne gw df m t c hct]

theorem foldl_lookup_mem (gw : Gateway) (df : DataFrame)
    (names : List String) (m : ResultsMap) (c : String)
    (hnd : names.Nodup) (hc : c ∈ names) :
    dictLookup (names.foldl (processTicker gw df) m) c =
      (expectedEntry gw df c).or (dictLookup m c) := by
  induction names generalizing m with
  | nil => simp at hc
  | cons t rest ih =>
    rcases List.nodup_cons.mp hnd with ⟨htr, hndr⟩
    by_cases hct : t = c
    · subst hct
      rw [List.foldl_cons, foldl_lookup_not_mem gw df rest _ t htr,
        lookup_processTicker_self]
    · have hcr : c ∈ rest := by
        rcases List.mem_cons.mp hc with hh | hh
        · exact absurd hh.symm hct
        · exact hh
      rw [List.foldl_cons, ih _ hndr hcr,
        lookup_processTicker_ne gw df m t c (fun he => hct he.symm)]

/-- The central characterization: under unique column names, the entry the
batch records for a column is exactly what the loop body contributes for
that column. -/
theorem runBatch_lookup (gw : Gateway) (df : DataFrame) (c : String)
    (hnd : df.columns.Nodup) (hc : c ∈ df.columns) :
    dictLookup (runBatch gw df) c = expectedEntry gw df c := by
  unfold runBatch
  rw [foldl_lookup_mem gw df df.columns [] c hnd hc]
  cases expectedEntry gw df c <;> rfl

theorem keys_mapReplace (m : ResultsMap) (k : String) (v : EstResult) :
    (m.map (fun p => if p.1 == k then (k, v) else p)).map Prod.fst =
      m.map Prod.fst := by
  induction m with
  | nil => rfl
  | cons p t ih =>
    simp only [List.map_cons, ih]
    by_cases hp : (p.1 == k) = true
    · have hpk : p.1 = k := by simpa using hp
      rw [if_pos hp]
      simp [hpk]
    · rw [if_neg hp]

theorem keys_dictInsert_cases (m : ResultsMap) (k : String) (v : EstResult) :
    (dictInsert m k v).map Prod.fst = m.map Prod.fst ∨
    (dictInsert m k v).map Prod.fst = m.map Prod.fst ++ [k] := by
  unfold dictInsert
  by_cases h : m.any (fun p => p.1 == k) = true
  · left; rw [if_pos h, keys_mapReplace]
  · right; rw [if_neg h]; simp

theorem nodup_keys_dictInsert (m : ResultsMap) (k : String) (v : EstResult)
    (h : (m.map Prod.fst).Nodup) :
    ((dictInsert m k v).map Prod.fst).Nodup := by
  unfold dictInsert
  by_cases hm : m.any (fun p => p.1 == k) = true
  · rw [if_pos hm, keys_mapReplace]; exact h
  · rw [if_neg hm]
    have h2 : m.any (fun p => p.1 == k) = false := by
      cases hb : m.any (fun p => p.1 == k) with
      | false => rfl
      | true => exact absurd hb hm
    have hnotin : k ∉ m.map Prod.fst := by
      intro hk
      rcases List.mem_map.mp hk with ⟨p, hp, hpk⟩
      have := any_false_forall m k h2 p hp
      rw [hpk] at this
      simp at this
    simp only [List.map_append, List.map_cons, List.map_nil]
    rw [List.nodup_append]
    exact ⟨h, List.nodup_singleton k, by simpa using hnotin⟩

theorem keys_processTicker_sublist (gw : Gateway) (df : DataFrame)
    (m : ResultsMap) (t : String) :
    ((processTicker gw df m t).map Prod.fst).Sublist
      (m.map Prod.fst ++ [t]) := by
  rcases hr : gw (dropnaAstype (df.getColumn t)) with e | r
  · simp only [processTicker, hr]
    rcases keys_dictInsert_cases m t (failureRecord t e) with h | h
    · rw [h]; exact List.sublist_append_left _ _
    · rw [h]
  · by_cases hs : getSuccess r = true
    · simp only [processTicker, hr, hs, if_true]
      rcases keys_dictInsert_cases m t r with h | h
      · rw [h]; exact List.sublist_append_left _ _
      · rw [h]
    · simp only [Bool.not_eq_true] at hs
      simp only [processTicker, hr, hs]
      exact List.sublist_append_left _ _

theorem nodup_keys_processTicker (gw : Gateway) (df : DataFrame)
    (m : ResultsMap) (t : String) (h : (m.map Prod.fst).Nodup) :
    ((processTicker gw df m t).map Prod.fst).Nodup := by
  rcases hr : gw (dropnaAstype (df.getColumn t)) with e | r
  · simp only [processTicker, hr]
    exact nodup_keys_dictInsert _ _ _ h
  · by_cases hs : getSuccess r = true
    · simp only [processTicker, hr, hs, if_true]
      exact nodup_keys_dictInsert _ _ _ h
    · simp only [Bool.not_eq_true] at hs
      simpa only [processTicker, hr, hs] using h

theorem foldl_keys_sublist (gw : Gateway) (df : DataFrame)
    (names : List String) (m : ResultsMap) :
    ((names.foldl (processTicker gw df) m).map Prod.fst).Sublist
      (m.map Prod.fst ++ names) := by
  induction names generalizing m with
  | nil => simp
  | cons t rest ih =>
    rw [List.foldl_cons]
    have h1 := ih (processTicker gw df m t)
    have h2 := (keys_processTicker_sublist gw df m t).append_right rest
    have h3 : (m.map Prod.fst ++ [t]) ++ rest =
        m.map Prod.fst ++ (t :: rest) := by
      rw [List.append_assoc]; rfl
    rw [h3] at h2
    exact h1.trans h2

theorem foldl_keys_nodup (gw : Gateway) (df : DataFrame)
    (names : List String) (m : ResultsMap)
    (h : (m.map Prod.fst).Nodup) :
    ((names.foldl (processTicker gw df) m).map Prod.fst).Nodup := by
  induction names generalizing m with
  | nil => exact h
  | cons t rest ih =>
    rw [List.foldl_cons]
    exact ih _ (nodup_keys_processTicker gw df m t h)

/-- C9: the keys of the output mapping are pairwise distinct and form an
order-preserving subsequence of the input column names; in particular they
are a subset of the column names and the successful entries appear in the
input column order. -/
theorem output_keys_ordered (gw : Gateway) (df : DataFrame) :
    ((runBatch gw df).map Prod.fst).Sublist df.columns ∧
    ((runBatch gw df).map Prod.fst).Nodup ∧
    ∀ k ∈ (runBatch gw df).map Prod.fst, k ∈ df.columns := by
  have hsub : ((runBatch gw df).map Prod.fst).Sublist df.columns := by
    have h := foldl_keys_sublist gw df df.columns []
    simpa [runBatch] using h
  refine ⟨hsub, ?_, fun k hk => hsub.subset hk⟩
  have h := foldl_keys_nodup gw df df.columns [] (by simp)
  simpa [runBatch] using h

/-- C2: a column whose gateway call returns without raising but with the
success flag false is omitted from the output mapping, and every other
column is still processed normally. -/
theorem signaled_failure_omitted (gw : Gateway) (df : DataFrame)
    (c : String) (r : EstResult)
    (hnd : df.columns.Nodup) (hc : c ∈ df.columns)
    (hok : gw (dropnaAstype (df.getColumn c)) = Except.ok r)
    (hfail : getSuccess r = false) :
    dictLookup (runBatch gw df) c = none ∧
    ∀ d ∈ df.columns, d ≠ c →
      dictLookup (runBatch gw df) d = expectedEntry gw df d := by
  constructor
  · rw [runBatch_lookup gw df c hnd hc]
    simp [expectedEntry, hok, hfail]
  · intro d hd _
    exact runBatch_lookup gw df d hnd hd

/-- C3: a column whose gateway call raises is recorded in the output with
a success-false failure record carrying a non-empty message derived from
the raised error, and every other column is still processed normally. -/
theorem raised_error_recorded (gw : Gateway) (df : DataFrame)
    (c e : String)
    (hnd : df.columns.Nodup) (hc : c ∈ df.columns)
    (herr : gw (dropnaAstype (df.getColumn c)) = Except.error e) :
    dictLookup (runBatch gw df) c = some (failureRecord c e) ∧
    (failureRecord c e).success = some false ∧
    (failureRecord c e).message = some (errMsg c e) ∧
    0 < (errMsg c e).length ∧
    ∀ d ∈ df.columns, d ≠ c →
      dictLookup (runBatch gw df) d = expectedEntry gw df d := by
  refine ⟨?_, rfl, rfl, ?_, ?_⟩
  · rw [runBatch_lookup gw df c hnd hc]
    simp [expectedEntry, herr]
  · unfold errMsg
    rw [String.length_append, String.length_append, String.length_append]
    have h17 : ("Error processing " : String).length = 17 := rfl
    have h2 : (": " : String).length = 2 := rfl
    rw [h17, h2]
    omega
  · intro d hd _
    exact runBatch_lookup gw df d hnd hd

/-- Modelled from the spec: the engine script getssl.jl is not among the
orchestration sources; per the spec, a successful engine result carries a
trend sequence aligned in length and order with the input series. -/
def GatewayTrendAligned (gw : Gateway) : Prop :=
  ∀ s r, gw s = Except.ok r → getSuccess r = true →
    ∃ tr, r.trend = some tr ∧ tr.length = s.length

/-- C4: for a conforming engine, a column whose estimation succeeds is
present in the output with its full result, and the trend of that result
has the length of the cleaned series extracted for the column. -/
theorem success_trend_aligned (gw : Gateway) (df : DataFrame)
    (c : String) (r : EstResult)
    (hconf : GatewayTrendAligned gw)
    (hnd : df.columns.Nodup) (hc : c ∈ df.columns)
    (hok : gw (dropnaAstype (df.getColumn c)) = Except.ok r)
    (hs : getSuccess r = true) :
    dictLookup (runBatch gw df) c = some r ∧
    ∃ tr, r.trend = some tr ∧
      tr.length = (dropnaAstype (df.getColumn c)).length := by
  refine ⟨?_, hconf _ r hok hs⟩
  rw [runBatch_lookup gw df c hnd hc]
  simp [expectedEntry, hok, hs]

/-- C7: with the dataset unchanged and a deterministic engine (the two
calls agree on every series), two runs of the batch return identical
output mappings. -/
theorem run_idempotent (a : Bool) (gw1 gw2 : Gateway) (df : DataFrame)
    (h : ∀ s, gw1 s = gw2 s) :
    run_structural_model a gw1 df = run_structural_model a gw2 df := by
  have he : gw1 = gw2 := funext h
  rw [he]

/-- C8: failure injection is isolated: if two engines agree on the cleaned
series of a column, the batch records the same entry for that column, no
matter what either engine does on any other column. -/
theorem failure_injection_isolated (gw1 gw2 : Gateway) (df : DataFrame)
    (d : String)
    (hnd : df.columns.Nodup) (hd : d ∈ df.columns)
    (hagree : gw1 (dropnaAstype (df.getColumn d)) =
      gw2 (dropnaAstype (df.getColumn d))) :
    dictLookup (runBatch gw1 df) d = dictLookup (runBatch gw2 df) d := by
  rw [runBatch_lookup gw1 df d hnd hd, runBatch_lookup gw2 df d hnd hd]
  unfold expectedEntry
  rw [hagree]

/-- C10: a gateway result record lacking the success key is treated as a
signaled failure: the column is omitted from the output mapping and the
remaining columns are still processed normally. -/
theorem missing_success_key_omitted (gw : Gateway) (df : DataFrame)
    (c : String) (r : EstResult)
    (hnd : df.columns.Nodup) (hc : c ∈ df.columns)
    (hok : gw (dropnaAstype (df.getColumn c)) = Except.ok r)
    (hmiss : r.success = none) :
    dictLookup (runBatch gw df) c = none ∧
    ∀ d ∈ df.columns, d ≠ c →
      dictLookup (runBatch gw df) d = expectedEntry gw df d := by
  constructor
  · rw [runBatch_lookup gw df c hnd hc]
    have hs : getSuccess r = false := by simp [getSuccess, hmiss]
    simp [expectedEntry, hok, hs]
  · intro d hd _
    exact runBatch_lookup gw df d hnd hd

/-- Concrete two-column dataframe for the evaluation examples: column A has
a missing middle entry, column B is complete. -/
def wDf : DataFrame :=
  ⟨[("A", [some 1, none, some 2]), ("B", [some 3])]⟩

/-- An engine that always succeeds and returns the input as the trend. -/
def gwOk : Gateway := fun s =>
  Except.ok { success := some true, message := none, trend := some s }

/-- An engine that signals failure on series of length two and succeeds
otherwise. -/
def gwSigFail : Gateway := fun s =>
  if s.length = 2 then
    Except.ok { success := some false, message := some "bad", trend := none }
  else
    Except.ok { success := some true, message := none, trend := some s }

/-- An engine that raises on series of length two and succeeds otherwise. -/
def gwRaise : Gateway := fun s =>
  if s.length = 2 then Except.error "boom"
  else Except.ok { success := some true, message := none, trend := some s }

/-- An engine whose result record lacks the success key. -/
def gwNoKey : Gateway := fun _ =>
  Except.ok { success := none, message := none, trend := none }

/-- C2 evaluated: in the two-column frame, a signaled failure on column A
leaves A out of the output while column B keeps its regular entry. -/
theorem signaled_failure_omitted_holds :
    dictLookup (runBatch gwSigFail wDf) "A" = none ∧
    ∀ d ∈ wDf.columns, d ≠ "A" →
      dictLookup (runBatch gwSigFail wDf) d = expectedEntry gwSigFail wDf d :=
  signaled_failure_omitted gwSigFail wDf "A"
    { success := some false, message := some "bad", trend := none }
    (by decide) (by decide) rfl rfl

/-- C3 evaluated: a raised error on column A is recorded as a failure
entry with a non-empty message while column B keeps its regular entry. -/
theorem raised_error_recorded_holds :
    dictLookup (runBatch gwRaise wDf) "A" = some (failureRecord "A" "boom") ∧
    (failureRecord "A" "boom").success = some false ∧
    (failureRecord "A" "boom").message = some (errMsg "A" "boom") ∧
    0 < (errMsg "A" "boom").length ∧
    ∀ d ∈ wDf.columns, d ≠ "A" →
      dictLookup (runBatch gwRaise wDf) d = expectedEntry gwRaise wDf d :=
  raised_error_recorded gwRaise wDf "A" "boom" (by decide) (by decide) rfl

/-- The record the always-succeeding engine returns for column A. -/
def wOkA : EstResult :=
  { success := some true, message := none, trend := some [1, 2] }

/-- C4 evaluated: the always-succeeding engine records column A with a
trend of length two, the length of its cleaned series. -/
theorem success_trend_aligned_holds :
    dictLookup (runBatch gwOk wDf) "A" = some wOkA ∧
    ∃ tr, wOkA.trend = some tr ∧
      tr.length = (dropnaAstype (wDf.getColumn "A")).length :=
  success_trend_aligned gwOk wDf "A" wOkA
    (by
      intro s r h _
      injection h with h2
      subst h2
      exact ⟨s, rfl, rfl⟩)
    (by decide) (by decide) rfl rfl

/-- C7 evaluated: two identical runs on the two-column frame agree. -/
theorem run_idempotent_holds :
    run_structural_model true gwOk wDf = run_structural_model true gwOk wDf :=
  run_idempotent true gwOk gwOk wDf (fun _ => rfl)

/-- C8 evaluated: injecting a failure for column A (the raising engine
versus the succeeding one) leaves the entry of column B unchanged. -/
theorem failure_injection_isolated_holds :
    dictLookup (runBatch gwOk wDf) "B" =
      dictLookup (runBatch gwRaise wDf) "B" :=
  failure_injection_isolated gwOk gwRaise wDf "B" (by decide) (by decide) rfl

/-- C10 evaluated: an engine returning a record without the success key
leaves column A out of the output while the other columns keep their
regular entries. -/
theorem missing_success_key_omitted_holds :
    dictLookup (runBatch gwNoKey wDf) "A" = none ∧
    ∀ d ∈ wDf.columns, d ≠ "A" →
      dictLookup (runBatch gwNoKey wDf) d = expectedEntry gwNoKey wDf d :=
  missing_success_key_omitted gwNoKey wDf "A"
    { success := none, message := none, trend := none }
    (by decide) (by decide) rfl rfl
